import Mathlib

/-!
Verification of the `blampe/powerwall` Go client (Tesla Fleet API) against its
natural-language specification.  Times are modelled as integer nanosecond
counts (Go `time.Time` / `time.Duration` hold int64 nanoseconds); Go machine
integers are modelled as `Int`/`Nat` with Go's truncating division; Go
`float64` payload values are idealised as `ℚ`.
-/

namespace Powerwall

/-- Nanoseconds in one second (`time.Second`). -/
def nsPerSecond : Nat := 1000000000

/-! ## Rate limiting (client.go, `rateLimitWait`)

Go source:
```
interval := time.Duration(60/c.rateLimitConfig.RealtimeDataRPM) * time.Second
if elapsed := time.Since(c.lastRequestTime); elapsed < interval {
    waitTime := interval - elapsed
    time.Sleep(waitTime)
}
c.lastRequestTime = time.Now()
```
`60/RealtimeDataRPM` is Go integer division on `int`. -/

/-- Minimum interval between requests, in nanoseconds, exactly as the Go code
computes it: `time.Duration(60/rpm) * time.Second` with integer division. -/
def rateLimitIntervalNs (rpm : Nat) : Int := ((60 / rpm : Nat) : Int) * (nsPerSecond : Int)

/-- Interval the spec asks for: 60 seconds divided by the ceiling, as an exact
rational number of nanoseconds.  This is the claim-side definition, used only
to compare with `rateLimitIntervalNs`. -/
def specIntervalNs (rpm : Nat) : ℚ := (60 / (rpm : ℚ)) * (nsPerSecond : ℚ)

/-- One pass through `rateLimitWait`: given the stored `lastRequestTime` and
the current clock `now` (ns), returns the nanoseconds slept and the new
`lastRequestTime` (the sleep is modelled as advancing the clock by exactly the
requested wait, and the final `time.Now()` call as reading that clock). -/
def rateLimitWait (rpm : Nat) (lastReq now : Int) : Int × Int :=
  let interval := rateLimitIntervalNs rpm
  let elapsed := now - lastReq
  if elapsed < interval then (interval - elapsed, now + (interval - elapsed))
  else (0, now)

/-! ## Token expiry (client.go, `IsTokenExpired`)

Go source: `return time.Now().Add(5 * time.Minute).After(c.tokenExpiry)`;
`t.After(u)` is strict `>`. -/

/-- Result of `IsTokenExpired` for a clock reading `now` and stored expiry
`tokenExpiry`, both in nanoseconds. -/
def isTokenExpired (now tokenExpiry : Int) : Bool :=
  decide (tokenExpiry < now + 5 * 60 * (nsPerSecond : Int))

/-! ## Token refresh (client.go, `RefreshToken`, success path)

Go source, after a 200 response decodes into `tokenResp`:
```
c.accessToken = tokenResp.AccessToken
if tokenResp.RefreshToken != "" {
    c.refreshToken = tokenResp.RefreshToken
}
c.tokenExpiry = time.Now().Add(time.Duration(tokenResp.ExpiresIn) * time.Second)
```
A JSON body omitting `refresh_token` decodes to the empty string, so absent
and empty coincide. -/

/-- Token-related session state of a `Client`. -/
structure ClientTokens where
  accessToken : String
  refreshToken : String
  tokenExpiry : Int
  deriving Repr, DecidableEq

/-- Decoded body of a successful token-refresh response. -/
structure TokenResponse where
  accessToken : String
  refreshToken : String
  expiresIn : Int
  deriving Repr, DecidableEq

/-- State update performed by `RefreshToken` on a successful response, at
clock reading `now` (ns). -/
def applyTokenRefresh (c : ClientTokens) (r : TokenResponse) (now : Int) : ClientTokens :=
  { accessToken := r.accessToken
    refreshToken := if r.refreshToken ≠ "" then r.refreshToken else c.refreshToken
    tokenExpiry := now + r.expiresIn * (nsPerSecond : Int) }

/-! ## HTTP status mapping (client.go, `doFleetRequest`)

Go source, after reading the response body:
```
switch resp.StatusCode {
case 200, 201: return body, nil
case 401: return nil, TokenExpiredError{Token: "access", ExpiresAt: c.tokenExpiry}
case 429:
    retryAfter := 60
    if retryHeader := resp.Header.Get("Retry-After"); retryHeader != "" {
        fmt.Sscanf(retryHeader, "%d", &retryAfter)
    }
    return nil, RateLimitError{Endpoint: endpoint, Limit: c.rateLimitConfig.RealtimeDataRPM,
        Remaining: 0, ResetTime: time.Now().Add(time.Duration(retryAfter) * time.Second),
        RetryAfter: retryAfter}
default: return nil, ApiError{URL: *req.URL, StatusCode: resp.StatusCode, Body: body}
}
```
`resp.Header.Get` yields "" when the header is absent. -/

/-- Typed error values of the client (errors part of the package). -/
inductive FleetError where
  | tokenExpired (token : String) (expiresAt : Int)
  | rateLimit (endpoint : String) (limit remaining resetTime retryAfter : Int)
  | apiError (url : String) (statusCode : Int) (body : String)
  deriving Repr, DecidableEq

/-- Value of accumulated decimal digits, stopping at the first non-digit
(scan semantics of a `%d` conversion after the sign). -/
def decDigitsVal : List Char → Nat → Nat
  | [], acc => acc
  | c :: cs, acc => if c.isDigit then decDigitsVal cs (10 * acc + (c.toNat - 48)) else acc

/-- Model of `fmt.Sscanf(s, "%d", &x)` with `x : int` (int64): skip leading
whitespace, optional sign, then at least one decimal digit; trailing
characters are ignored.  The scanned digit run goes through
`strconv.ParseInt(..., 10, 64)`, which fails with a range error when the
value does not fit in int64; on any scan error — no digits or out of range —
the Go call leaves the target variable untouched, modelled as `none`. -/
def sscanfDec (s : String) : Option Int :=
  let cs := s.data.dropWhile (fun c => c = ' ' ∨ c = '\t' ∨ c = '\n' ∨ c = '\r')
  match cs with
  | '+' :: c :: rest =>
      if c.isDigit then
        let n := decDigitsVal (c :: rest) 0
        if n ≤ 9223372036854775807 then some (n : Int) else none
      else none
  | '-' :: c :: rest =>
      if c.isDigit then
        let n := decDigitsVal (c :: rest) 0
        if n ≤ 9223372036854775808 then some (-(n : Int)) else none
      else none
  | c :: rest =>
      if c.isDigit then
        let n := decDigitsVal (c :: rest) 0
        if n ≤ 9223372036854775807 then some (n : Int) else none
      else none
  | [] => none

/-- Status-code mapping of `doFleetRequest`, translated branch for branch
from the Go switch.  `retryAfterHeader` is `resp.Header.Get("Retry-After")`
("" when absent); `now` is the clock at the 429 branch. -/
def handleFleetResponse (endpoint url : String) (tokenExpiry realtimeRPM now status : Int)
    (body retryAfterHeader : String) : Except FleetError String :=
  if status = 200 ∨ status = 201 then .ok body
  else if status = 401 then .error (.tokenExpired "access" tokenExpiry)
  else if status = 429 then
    let retryAfter : Int :=
      if retryAfterHeader ≠ "" then
        match sscanfDec retryAfterHeader with
        | some n => n
        | none => 60
      else 60
    .error (.rateLimit endpoint realtimeRPM 0 (now + retryAfter * (nsPerSecond : Int)) retryAfter)
  else .error (.apiError url status body)

/-- Mapping the claim describes, written from the claim's words: 200/201 keep
the raw body; 401 is a token-expired error of kind "access" with the recorded
expiry; 429 is a rate-limit error whose retry-after comes from the header when
present and parsable, 60 otherwise, with reset time now + retry-after; any
other status is a generic API error with the URL, status and body verbatim. -/
def claimedFleetResponse (endpoint url : String) (tokenExpiry realtimeRPM now status : Int)
    (body retryAfterHeader : String) : Except FleetError String :=
  if status = 200 ∨ status = 201 then .ok body
  else if status = 401 then .error (.tokenExpired "access" tokenExpiry)
  else if status = 429 then
    let retryAfter : Int :=
      ((if retryAfterHeader = "" then none else sscanfDec retryAfterHeader).getD 60)
    .error (.rateLimit endpoint realtimeRPM 0 (now + retryAfter * (nsPerSecond : Int)) retryAfter)
  else .error (.apiError url status body)

/-! ## Products filtering (api.go, `GetEnergyProducts`) -/

/-- Fields of `EnergyProduct` this development needs; the remaining passive
JSON fields of the Go struct are elided. -/
structure EnergyProduct where
  energyProductID : Int
  resourceType : String
  siteName : String
  deriving Repr, DecidableEq

/-- Filtering loop of `GetEnergyProducts`: keeps exactly the entries whose
`ResourceType` equals "solar" or "battery", in their original order. -/
def getEnergyProductsFilter : List EnergyProduct → List EnergyProduct
  | [] => []
  | p :: ps =>
      if p.resourceType = "solar" ∨ p.resourceType = "battery" then
        p :: getEnergyProductsFilter ps
      else getEnergyProductsFilter ps

/-! ## Live-status mapping (api.go, `GetMetersAggregates` and `GetSOE`) -/

/-- Payload of the shared `live_status` response; pointer fields of the Go
struct become `Option`, `float64` values are idealised as `ℚ`. -/
structure LiveStatus where
  solarPower : Option ℚ
  batteryPower : Option ℚ
  loadPower : Option ℚ
  gridPower : Option ℚ
  percentageCharged : Option ℚ
  gridStatus : String
  gridServicesActive : Bool
  timestamp : Int
  deriving Repr, DecidableEq

/-- Fields of `MeterAggregatesData` that `GetMetersAggregates` fills (all
other fields stay at their zero values and are elided).  `InstantPower` is a
`float32` in the source; here it holds the rational value of that float32. -/
structure MeterAggregates where
  lastCommunicationTime : Int
  instantPower : ℚ
  deriving Repr, DecidableEq

/-- Round-to-nearest with ties to even, on the rationals into the integers. -/
def roundHalfEvenZ (x : ℚ) : ℤ :=
  if x - (⌊x⌋ : ℚ) < 1 / 2 then ⌊x⌋
  else if 1 / 2 < x - (⌊x⌋ : ℚ) then ⌊x⌋ + 1
  else if ⌊x⌋ % 2 = 0 then ⌊x⌋ else ⌊x⌋ + 1

/-- Fuel-bounded upward search step for the binary exponent. -/
def expUp : Nat → ℚ → ℤ → ℤ
  | 0, _, e => e
  | f + 1, a, e => if (2 : ℚ) ^ (e + 1) ≤ a then expUp f a (e + 1) else e

/-- Fuel-bounded downward search step for the binary exponent. -/
def expDown : Nat → ℚ → ℤ → ℤ
  | 0, _, e => e
  | f + 1, a, e => if (2 : ℚ) ^ e ≤ a then e else expDown f a (e - 1)

/-- Greatest `e` with `2 ^ e ≤ a`, for positive `a`; the fuel suffices for
every rational, since the exponent magnitude stays below
numerator + denominator. -/
def binExp (a : ℚ) : ℤ :=
  if 1 ≤ a then expUp (a.num.natAbs + 1) a 0 else expDown (a.den + 1) a 0

/-- Rational value of Go's `float32(x)` narrowing of a finite float64 value:
IEEE-754 binary32 rounding to nearest with ties to even on a 24-bit
significand, with the subnormal quantum 2^(-149) below 2^(-126) (underflow
rounds to zero through the same formula).  Magnitudes beyond the finite
float32 range, where Go produces an infinity that has no rational value,
stay on the same 24-bit grid instead. -/
def float32Round (q : ℚ) : ℚ :=
  if q = 0 then 0
  else if q < 0 then
    -((roundHalfEvenZ (|q| / 2 ^ (max (binExp |q|) (-126) - 23)) : ℚ) *
        2 ^ (max (binExp |q|) (-126) - 23))
  else
    (roundHalfEvenZ (|q| / 2 ^ (max (binExp |q|) (-126) - 23)) : ℚ) *
      2 ^ (max (binExp |q|) (-126) - 23)

/-- Result map of `GetMetersAggregates`: four conditional inserts with
distinct keys, modelled as an association list in source order.  The grid
power category is stored under the key "site", exactly as in the source, and
each power value goes through the source's `float32(...)` narrowing. -/
def getMetersAggregates (ls : LiveStatus) : List (String × MeterAggregates) :=
  (match ls.solarPower with
   | some p => [("solar", ⟨ls.timestamp, float32Round p⟩)]
   | none => []) ++
  (match ls.batteryPower with
   | some p => [("battery", ⟨ls.timestamp, float32Round p⟩)]
   | none => []) ++
  (match ls.gridPower with
   | some p => [("site", ⟨ls.timestamp, float32Round p⟩)]
   | none => []) ++
  (match ls.loadPower with
   | some p => [("load", ⟨ls.timestamp, float32Round p⟩)]
   | none => [])

/-- Percentage produced by `GetSOE`: the result starts zero-filled and is
overwritten only when `percentage_charged` is present. -/
def getSOEPercentage (ls : LiveStatus) : ℚ :=
  match ls.percentageCharged with
  | some p => p
  | none => 0

/-! ## Endpoint methods: site gate and local validation (api.go)

Each site-scoped method first runs `ensureSiteSelected`, then its local
argument validation, and only then hands one HTTP request to the Core.  The
methods are modelled up to the point where the request is issued: the outcome
records the requests handed to `doFleetRequest` and the local pre-flight error
if one occurred.  Query parameters are kept in source insertion order
(percent-encoding and the alphabetical ordering of Go's `url.Values.Encode`
are not modelled); POST payloads are kept as key/value lists. -/

/-- One outbound request as an endpoint method builds it. -/
structure FleetRequest where
  method : String
  path : String
  query : List (String × String) := []
  payload : List (String × String) := []
  deriving Repr, DecidableEq

/-- Trace of an endpoint method run: the requests it issued and the local
pre-flight error, if any. -/
structure FleetCall where
  requests : List FleetRequest
  err : Option String
  deriving Repr, DecidableEq

/-- Message of the site-selection precondition error. -/
def noSiteSelectedMsg : String := "no energy site selected - call SelectEnergySite() first"

/-- Gate run by every site-scoped method (api.go `ensureSiteSelected`): the
zero site identifier means "unselected". -/
def ensureSiteSelected (selectedSiteID : Int) : Option String :=
  if selectedSiteID = 0 then some noSiteSelectedMsg else none

/-- Path `/api/1/energy_sites/<id>/<suffix>`. -/
def sitePath (siteID : Int) (suffix : String) : String :=
  "/api/1/energy_sites/" ++ toString siteID ++ "/" ++ suffix

/-- Optional `time_zone` query parameter: added only when a timezone was
supplied and non-empty (Go variadic `timeZone ...string`). -/
def tzParam : List String → List (String × String)
  | t :: _ => if t ≠ "" then [("time_zone", t)] else []
  | [] => []

/-- Valid periods for calendar-history style queries (Go `validPeriods` map
lookup, defaulting to false). -/
def validPeriods (period : String) : Bool :=
  period = "day" ∨ period = "week" ∨ period = "month" ∨ period = "year"

/-- Valid kinds for the generic calendar-history query. -/
def validKinds (kind : String) : Bool :=
  kind = "energy" ∨ kind = "backup"

/-- `GetStatus`: gate, then one GET of `live_status`. -/
def GetStatus (selectedSiteID : Int) : FleetCall :=
  match ensureSiteSelected selectedSiteID with
  | some e => ⟨[], some e⟩
  | none => ⟨[{ method := "GET", path := sitePath selectedSiteID "live_status" }], none⟩

/-- `GetSiteInfo`: gate, then one GET of `site_info`. -/
def GetSiteInfo (selectedSiteID : Int) : FleetCall :=
  match ensureSiteSelected selectedSiteID with
  | some e => ⟨[], some e⟩
  | none => ⟨[{ method := "GET", path := sitePath selectedSiteID "site_info" }], none⟩

/-- `GetMetersAggregates`: gate, then one GET of `live_status` (the response
reshaping is `getMetersAggregates`). -/
def GetMetersAggregates (selectedSiteID : Int) : FleetCall :=
  match ensureSiteSelected selectedSiteID with
  | some e => ⟨[], some e⟩
  | none => ⟨[{ method := "GET", path := sitePath selectedSiteID "live_status" }], none⟩

/-- `GetSOE`: gate, then one GET of `live_status` (the response reshaping is
`getSOEPercentage`). -/
def GetSOE (selectedSiteID : Int) : FleetCall :=
  match ensureSiteSelected selectedSiteID with
  | some e => ⟨[], some e⟩
  | none => ⟨[{ method := "GET", path := sitePath selectedSiteID "live_status" }], none⟩

/-- `GetGridStatus`: gate, then one GET of `live_status`. -/
def GetGridStatus (selectedSiteID : Int) : FleetCall :=
  match ensureSiteSelected selectedSiteID with
  | some e => ⟨[], some e⟩
  | none => ⟨[{ method := "GET", path := sitePath selectedSiteID "live_status" }], none⟩

/-- `GetTelemetryHistory`: gate, then one GET of `telemetry_history` with
kind=charge and the date range. -/
def GetTelemetryHistory (selectedSiteID : Int) (startDate endDate : String)
    (timeZone : List String) : FleetCall :=
  match ensureSiteSelected selectedSiteID with
  | some e => ⟨[], some e⟩
  | none =>
      ⟨[{ method := "GET", path := sitePath selectedSiteID "telemetry_history",
          query := [("kind", "charge"), ("start_date", startDate), ("end_date", endDate)] ++
            tzParam timeZone }], none⟩

/-- `GetEnergyHistory`: gate, local period validation, then one GET of
`calendar_history` with kind=energy. -/
def GetEnergyHistory (selectedSiteID : Int) (startDate endDate period : String)
    (timeZone : List String) : FleetCall :=
  match ensureSiteSelected selectedSiteID with
  | some e => ⟨[], some e⟩
  | none =>
      if validPeriods period = false then
        ⟨[], some ("invalid period for energy history: " ++ period ++
          " (supported: day, week, month, year)")⟩
      else
        ⟨[{ method := "GET", path := sitePath selectedSiteID "calendar_history",
            query := [("kind", "energy"), ("start_date", startDate), ("end_date", endDate),
              ("period", period)] ++ tzParam timeZone }], none⟩

/-- `GetBackupHistory`: gate, local period validation, then one GET of
`calendar_history` with kind=backup. -/
def GetBackupHistory (selectedSiteID : Int) (startDate endDate period : String)
    (timeZone : List String) : FleetCall :=
  match ensureSiteSelected selectedSiteID with
  | some e => ⟨[], some e⟩
  | none =>
      if validPeriods period = false then
        ⟨[], some ("invalid period for backup history: " ++ period ++
          " (supported: day, week, month, year)")⟩
      else
        ⟨[{ method := "GET", path := sitePath selectedSiteID "calendar_history",
            query := [("kind", "backup"), ("start_date", startDate), ("end_date", endDate),
              ("period", period)] ++ tzParam timeZone }], none⟩

/-- `GetCalendarHistory`: gate, kind validation, period validation, then one
GET of `calendar_history`. -/
def GetCalendarHistory (selectedSiteID : Int) (kind startDate endDate period : String)
    (timeZone : List String) : FleetCall :=
  match ensureSiteSelected selectedSiteID with
  | some e => ⟨[], some e⟩
  | none =>
      if validKinds kind = false then
        ⟨[], some ("invalid kind for calendar history: " ++ kind ++
          " (supported: energy, backup)")⟩
      else if validPeriods period = false then
        ⟨[], some ("invalid period for calendar history: " ++ period ++
          " (supported: day, week, month, year)")⟩
      else
        ⟨[{ method := "GET", path := sitePath selectedSiteID "calendar_history",
            query := [("kind", kind), ("start_date", startDate), ("end_date", endDate),
              ("period", period)] ++ tzParam timeZone }], none⟩

/-- `SetBackupReserve`: gate, percent range validation, then one POST to
`backup`. -/
def SetBackupReserve (selectedSiteID : Int) (percent : Int) : FleetCall :=
  match ensureSiteSelected selectedSiteID with
  | some e => ⟨[], some e⟩
  | none =>
      if percent < 0 ∨ percent > 100 then
        ⟨[], some ("backup reserve percent must be between 0 and 100, got " ++
          toString percent)⟩
      else
        ⟨[{ method := "POST", path := sitePath selectedSiteID "backup",
            payload := [("backup_reserve_percent", toString percent)] }], none⟩

/-- `SetSiteName`: gate, non-empty name validation, then one POST to
`site_name`. -/
def SetSiteName (selectedSiteID : Int) (name : String) : FleetCall :=
  match ensureSiteSelected selectedSiteID with
  | some e => ⟨[], some e⟩
  | none =>
      if name = "" then ⟨[], some "site name cannot be empty"⟩
      else
        ⟨[{ method := "POST", path := sitePath selectedSiteID "site_name",
            payload := [("site_name", name)] }], none⟩

/-- `SetStormMode`: gate, then one POST to `storm_mode`. -/
def SetStormMode (selectedSiteID : Int) (enabled : Bool) : FleetCall :=
  match ensureSiteSelected selectedSiteID with
  | some e => ⟨[], some e⟩
  | none =>
      ⟨[{ method := "POST", path := sitePath selectedSiteID "storm_mode",
          payload := [("enabled", toString enabled)] }], none⟩

/-! ## Duration JSON codec (types file, `Duration`)

The codec delegates to the Go standard library:
`MarshalJSON` is `json.Marshal(v.String())` and `UnmarshalJSON` strips every
`"` from the raw bytes and calls `time.ParseDuration`.  `time.Duration` is an
int64 nanosecond count; `Duration.String` renders it as "72h3m0.5s" (or
"0s", "512ns", "1.5µs", "1.2ms" below one second), and `time.ParseDuration`
reads a signed sequence of decimal-number-with-optional-fraction/unit terms.
Both library functions are modelled below from their Go sources.  The only
deliberate deviation: Go adds the fractional part as
`uint64(float64(f) * (float64(unit)/scale))`; this model computes the exact
`f * unit / scale` in integer arithmetic, which coincides with the float64
computation whenever `scale` divides `unit` — in particular on every string
the printer produces. -/

/-- Decimal digit character for a digit value below ten. -/
def digitChar (d : Nat) : Char := Char.ofNat (48 + d)

/-- Numeric value of a decimal digit character. -/
def charDigit (c : Char) : Nat := c.toNat - 48

/-- Value accumulated by scanning a most-significant-first digit list onto an
accumulator, one `x = x*10 + digit` step per digit. -/
def accVal (x : Nat) (ds : List Nat) : Nat := ds.foldl (fun a d => a * 10 + d) x

/-- Little-endian decimal digits of `n`, recursion bounded by a digit-count
fuel; exact whenever `n < 10 ^ fuel`. -/
def digitsLE : Nat → Nat → List Nat
  | 0, _ => []
  | f + 1, n => if n = 0 then [] else n % 10 :: digitsLE f (n / 10)

/-- Value of a little-endian digit list. -/
def valLE : List Nat → Nat
  | [] => 0
  | d :: ds => d + 10 * valLE ds

/-- Digit list printed by Go's `fmtInt`: plain decimal, "0" for zero.  Twenty
digits cover every uint64, in particular every magnitude the printer can
receive. -/
def intDigits (n : Nat) : List Nat :=
  if n = 0 then [0] else (digitsLE 20 n).reverse

/-- Characters printed by Go's `fmtInt`. -/
def fmtInt (n : Nat) : List Char := (intDigits n).map digitChar

/-- Digit list printed by Go's `fmtFrac` loop: the last `prec` decimal digits
of `v`, least significant processed first, digits skipped until the first
non-zero one has been seen (`print` is the loop's flag). -/
def fmtFracDigits : Nat → Nat → Bool → List Nat
  | _, 0, _ => []
  | v, p + 1, print =>
      let d := v % 10
      let print2 := print || decide (d ≠ 0)
      let higher := fmtFracDigits (v / 10) p print2
      if print2 then higher ++ [d] else higher

/-- Fractional part printed by Go's `fmtFrac`: a dot followed by the digits,
or nothing when every fraction digit is zero. -/
def fracPart (v prec : Nat) : List Char :=
  let ds := fmtFracDigits v prec false
  if ds = [] then [] else '.' :: ds.map digitChar

/-- Characters produced by Go's `Duration.String` for the magnitude `u`
(nanoseconds): sub-second values use ns/µs/ms with a fraction, larger values
use hours/minutes/seconds with a fractional second. -/
def goDurationCore (u : Nat) : List Char :=
  if u < nsPerSecond then
    if u = 0 then ['0', 's']
    else if u < 1000 then fmtInt u ++ ['n', 's']
    else if u < 1000000 then fmtInt (u / 1000) ++ fracPart u 3 ++ ['µ', 's']
    else fmtInt (u / 1000000) ++ fracPart u 6 ++ ['m', 's']
  else
    if u / nsPerSecond / 60 = 0 then
      fmtInt (u / nsPerSecond % 60) ++ fracPart u 9 ++ ['s']
    else if u / nsPerSecond / 60 / 60 = 0 then
      fmtInt (u / nsPerSecond / 60 % 60) ++ ['m'] ++
        (fmtInt (u / nsPerSecond % 60) ++ fracPart u 9 ++ ['s'])
    else
      fmtInt (u / nsPerSecond / 60 / 60) ++ ['h'] ++
        (fmtInt (u / nsPerSecond / 60 % 60) ++ ['m'] ++
          (fmtInt (u / nsPerSecond % 60) ++ fracPart u 9 ++ ['s']))

/-- Characters produced by Go's `Duration.String`: the magnitude rendering,
minus-prefixed for negative durations. -/
def goDurationChars (d : Int) : List Char :=
  if d < 0 then '-' :: goDurationCore d.natAbs else goDurationCore d.natAbs

/-- Accumulating decimal scanner of Go's `leadingInt`, with its two overflow
checks against 2^63 (`none` is the overflow error); returns the value, the
number of digits consumed and the remaining characters. -/
def leadingIntAux : List Char → Nat → Nat → Option (Nat × Nat × List Char)
  | [], x, n => some (x, n, [])
  | c :: cs, x, n =>
      if c.isDigit then
        if x > 922337203685477580 then none
        else
          let y := x * 10 + charDigit c
          if y > 9223372036854775808 then none
          else leadingIntAux cs y (n + 1)
      else some (x, n, c :: cs)

/-- Accumulating scanner of Go's `leadingFraction`: like `leadingIntAux` but
on overflow it merely stops accumulating (keeping value and scale) while
still consuming digits; returns value, scale (10^digits kept), digits
consumed, and the rest. -/
def leadingFractionAux : List Char → Nat → Nat → Nat → Bool → Nat × Nat × Nat × List Char
  | [], x, sc, n, _ => (x, sc, n, [])
  | c :: cs, x, sc, n, ovf =>
      if c.isDigit then
        if ovf then leadingFractionAux cs x sc (n + 1) true
        else if x > 922337203685477580 then leadingFractionAux cs x sc (n + 1) true
        else
          let y := x * 10 + charDigit c
          if y > 9223372036854775808 then leadingFractionAux cs x sc (n + 1) true
          else leadingFractionAux cs y (sc * 10) (n + 1) false
      else (x, sc, n, c :: cs)

/-- Unit-name scanner of `ParseDuration`: takes characters up to the next
digit or dot. -/
def takeUnit : List Char → List Char × List Char
  | [] => ([], [])
  | c :: cs =>
      if c = '.' ∨ c.isDigit then ([], c :: cs)
      else
        let (u, r) := takeUnit cs
        (c :: u, r)

/-- Go's `unitMap`: nanoseconds per unit name. -/
def unitMultiplier (u : List Char) : Option Nat :=
  if u = ['n', 's'] then some 1
  else if u = ['u', 's'] then some 1000
  else if u = ['µ', 's'] then some 1000
  else if u = ['μ', 's'] then some 1000
  else if u = ['m', 's'] then some 1000000
  else if u = ['s'] then some 1000000000
  else if u = ['m'] then some 60000000000
  else if u = ['h'] then some 3600000000000
  else none

/-- Optional-fraction scan of `ParseDuration`: when a dot follows the integer
part, consume it and the fraction digits; otherwise value 0 with scale 1. -/
def fracScan : List Char → Nat × Nat × Nat × List Char
  | '.' :: s1t => leadingFractionAux s1t 0 1 0 false
  | s1 => (0, 1, 0, s1)

/-- Term loop of `ParseDuration`, accumulating the magnitude `d`; the fuel
argument only bounds the recursion and is always instantiated with more fuel
than there are characters (every loop iteration consumes at least one
character).  `none` is any of the parse errors. -/
def parseTermsFuel : Nat → List Char → Nat → Option Nat
  | 0, _, _ => none
  | _ + 1, [], d => some d
  | fuel + 1, c :: cs, d =>
      if ¬ (c = '.' ∨ c.isDigit) then none
      else
        match leadingIntAux (c :: cs) 0 0 with
        | none => none
        | some (v, npre, s1) =>
            match fracScan s1 with
            | (f, scale, npost, s2) =>
                if npre = 0 ∧ npost = 0 then none
                else
                  match takeUnit s2 with
                  | (uc, s3) =>
                      if uc = [] then none
                      else
                        match unitMultiplier uc with
                        | none => none
                        | some unit =>
                            if v > 9223372036854775808 / unit then none
                            else
                              let v3 := v * unit + f * unit / scale
                              if f > 0 ∧ v3 > 9223372036854775808 then none
                              else
                                if d + v3 > 9223372036854775808 then none
                                else parseTermsFuel fuel s3 (d + v3)

/-- Sign and shell handling of `ParseDuration` after the optional sign has
been stripped: the "0" shortcut, the empty-string error, the term loop, and
the final range check (the most negative int64 is representable, so only the
positive side is checked). -/
def parseSigned (neg : Bool) (cs : List Char) : Option Int :=
  if cs = ['0'] then some 0
  else if cs = [] then none
  else
    match parseTermsFuel (cs.length + 1) cs 0 with
    | none => none
    | some d =>
        if neg then some (-(d : Int))
        else if d > 9223372036854775807 then none
        else some (d : Int)

/-- Model of `time.ParseDuration` on a character list. -/
def goParseDurationChars (cs : List Char) : Option Int :=
  match cs with
  | c :: rest =>
      if c = '-' then parseSigned true rest
      else if c = '+' then parseSigned false rest
      else parseSigned false (c :: rest)
  | [] => parseSigned false []

/-- `Duration.MarshalJSON`: `json.Marshal(v.String())`.  Duration strings
contain no character the JSON encoder escapes, so the encoding is exactly the
string between quotes. -/
def goMarshalDuration (d : Int) : String :=
  String.mk ('"' :: goDurationChars d ++ ['"'])

/-- `Duration.UnmarshalJSON`: remove every `"` from the raw bytes
(`strings.Replace(..., -1)`) and parse the remainder as a duration. -/
def goUnmarshalDuration (s : String) : Option Int :=
  goParseDurationChars (s.data.filter (fun c => c ≠ '"'))

/-! ### Digit and scanner lemmas for the duration codec -/

theorem digitChar_isDigit {d : Nat} (h : d < 10) : (digitChar d).isDigit = true := by
  interval_cases d <;> decide

theorem charDigit_digitChar {d : Nat} (h : d < 10) : charDigit (digitChar d) = d := by
  interval_cases d <;> decide

theorem digitChar_ne_quote {d : Nat} (h : d < 10) : digitChar d ≠ '"' := by
  interval_cases d <;> decide

theorem isDigit_ne_quote {c : Char} (h : c.isDigit = true) : c ≠ '"' := by
  intro he
  subst he
  simp at h

theorem accVal_append (x : Nat) (l1 l2 : List Nat) :
    accVal x (l1 ++ l2) = accVal (accVal x l1) l2 := by
  simp [accVal, List.foldl_append]

theorem accVal_split (x : Nat) (ds : List Nat) :
    accVal x ds = x * 10 ^ ds.length + accVal 0 ds := by
  induction ds generalizing x with
  | nil => simp [accVal]
  | cons d t ih =>
      have hc : accVal 0 (d :: t) = accVal d t := by
        simp [accVal]
      show accVal (x * 10 + d) t = _
      rw [ih (x * 10 + d), hc, ih d]
      simp only [List.length_cons, pow_succ]
      ring

theorem accVal_ge (x : Nat) (ds : List Nat) : x ≤ accVal x ds := by
  rw [accVal_split]
  have h1 : 1 ≤ 10 ^ ds.length := Nat.one_le_pow _ _ (by norm_num)
  calc x = x * 1 := by ring
    _ ≤ x * 10 ^ ds.length + accVal 0 ds := by
        exact le_trans (Nat.mul_le_mul_left x h1) (Nat.le_add_right _ _)

theorem accVal_lt {ds : List Nat} (hds : ∀ m ∈ ds, m < 10) :
    accVal 0 ds < 10 ^ ds.length := by
  induction ds with
  | nil => simp [accVal]
  | cons d t ih =>
      have hd : d < 10 := hds d (by simp)
      have ht : ∀ m ∈ t, m < 10 := fun m hm => hds m (by simp [hm])
      show accVal (0 * 10 + d) t < _
      rw [accVal_split]
      have := ih ht
      simp only [List.length_cons, pow_succ]
      calc (0 * 10 + d) * 10 ^ t.length + accVal 0 t
          < (0 * 10 + d) * 10 ^ t.length + 10 ^ t.length := by omega
        _ = (d + 1) * 10 ^ t.length := by ring
        _ ≤ 10 ^ t.length * 10 := by
            rw [mul_comm (10 ^ t.length) 10]
            exact Nat.mul_le_mul_right _ (by omega)

theorem valLE_digitsLE {fuel n : Nat} (h : n < 10 ^ fuel) :
    valLE (digitsLE fuel n) = n := by
  induction fuel generalizing n with
  | zero =>
      interval_cases n
      rfl
  | succ f ih =>
      by_cases h0 : n = 0
      · simp [digitsLE, h0, valLE]
      · have hdiv : n / 10 < 10 ^ f := by
          rw [pow_succ] at h
          omega
        simp only [digitsLE, h0, if_false, valLE, ih hdiv]
        omega

theorem digitsLE_lt {fuel n : Nat} : ∀ m ∈ digitsLE fuel n, m < 10 := by
  induction fuel generalizing n with
  | zero => simp [digitsLE]
  | succ f ih =>
      intro m hm
      by_cases h0 : n = 0
      · simp [digitsLE, h0] at hm
      · simp only [digitsLE, h0, if_false, List.mem_cons] at hm
        rcases hm with h | h
        · omega
        · exact ih m h

theorem accVal_reverse (x : Nat) (L : List Nat) :
    accVal x L.reverse = x * 10 ^ L.length + valLE L := by
  induction L generalizing x with
  | nil => simp [accVal, valLE]
  | cons d t ih =>
      rw [List.reverse_cons, accVal_append, ih]
      show accVal (x * 10 ^ t.length + valLE t) [d] = _
      show (x * 10 ^ t.length + valLE t) * 10 + d = _
      simp [valLE, List.length_cons, pow_succ]
      ring

theorem accVal_intDigits {n : Nat} (h : n < 10 ^ 20) :
    accVal 0 (intDigits n) = n := by
  by_cases h0 : n = 0
  · simp [intDigits, h0]; rfl
  · simp only [intDigits, h0, if_false]
    rw [accVal_reverse, valLE_digitsLE h]
    ring

theorem intDigits_lt {n : Nat} : ∀ m ∈ intDigits n, m < 10 := by
  intro m hm
  by_cases h0 : n = 0
  · simp [intDigits, h0] at hm
    omega
  · simp only [intDigits, h0, if_false, List.mem_reverse] at hm
    exact digitsLE_lt m hm

theorem intDigits_cons (n : Nat) : ∃ d t, intDigits n = d :: t ∧ d < 10 := by
  by_cases h0 : n = 0
  · exact ⟨0, [], by simp [intDigits, h0], by norm_num⟩
  · have hne : intDigits n ≠ [] := by
      simp only [intDigits, h0, if_false]
      simp [digitsLE, h0]
    rcases he : intDigits n with _ | ⟨d, t⟩
    · exact absurd he hne
    · exact ⟨d, t, rfl, intDigits_lt d (he ▸ List.mem_cons_self d t)⟩

/-- Condition on which the decimal scanners stop: no characters or a leading
non-digit. -/
def headNotDigit : List Char → Prop
  | [] => True
  | c :: _ => c.isDigit = false

/-- Condition on which the unit scanner stops: no characters or a leading dot
or digit. -/
def headDotOrDigit : List Char → Prop
  | [] => True
  | c :: _ => c = '.' ∨ c.isDigit = true

theorem mod_ten_pow_succ (v q : Nat) :
    v % 10 ^ (q + 1) = (v / 10 % 10 ^ q) * 10 + v % 10 := by
  have h1 : v = 10 ^ (q + 1) * (v / 10 / 10 ^ q) + ((v / 10 % 10 ^ q) * 10 + v % 10) := by
    have ha : v / 10 = 10 ^ q * (v / 10 / 10 ^ q) + v / 10 % 10 ^ q :=
      (Nat.div_add_mod _ _).symm
    have hb : v = 10 * (v / 10) + v % 10 := (Nat.div_add_mod v 10).symm
    calc v = 10 * (v / 10) + v % 10 := hb
      _ = 10 * (10 ^ q * (v / 10 / 10 ^ q) + v / 10 % 10 ^ q) + v % 10 := by rw [← ha]
      _ = 10 ^ (q + 1) * (v / 10 / 10 ^ q) + ((v / 10 % 10 ^ q) * 10 + v % 10) := by
          rw [pow_succ]; ring
  have h2 : (v / 10 % 10 ^ q) * 10 + v % 10 < 10 ^ (q + 1) := by
    have hm1 : v / 10 % 10 ^ q < 10 ^ q := Nat.mod_lt _ (Nat.pow_pos (by norm_num))
    have hm2 : v % 10 < 10 := Nat.mod_lt _ (by norm_num)
    rw [pow_succ]
    omega
  conv_lhs => rw [h1]
  rw [Nat.mul_add_mod, Nat.mod_eq_of_lt h2]

theorem leadingIntAux_append {ds : List Nat} {rest : List Char} (x n : Nat)
    (hds : ∀ m ∈ ds, m < 10) (hrest : headNotDigit rest)
    (hbound : accVal x ds ≤ 9223372036854775808) :
    leadingIntAux (ds.map digitChar ++ rest) x n =
      some (accVal x ds, n + ds.length, rest) := by
  induction ds generalizing x n with
  | nil =>
      cases rest with
      | nil => simp [leadingIntAux, accVal]
      | cons c t =>
          have hc : c.isDigit = false := hrest
          simp [leadingIntAux, hc, accVal]
  | cons m tl ih =>
      have hm : m < 10 := hds m (by simp)
      have htl : ∀ a ∈ tl, a < 10 := fun a ha => hds a (by simp [ha])
      have hacc : accVal x (m :: tl) = accVal (x * 10 + m) tl := by simp [accVal]
      have hxm : x * 10 + m ≤ 9223372036854775808 := by
        have hge := accVal_ge (x * 10 + m) tl
        rw [hacc] at hbound
        omega
      have hx : ¬ (x > 922337203685477580) := by omega
      have hy : ¬ (x * 10 + m > 9223372036854775808) := by omega
      have hbtl : accVal (x * 10 + m) tl ≤ 9223372036854775808 := by rwa [hacc] at hbound
      simp only [List.map_cons, List.cons_append, leadingIntAux, digitChar_isDigit hm,
        if_true, charDigit_digitChar hm, hx, if_false, hy]
      have hshow : leadingIntAux ((List.map digitChar tl).append rest) (x * 10 + m) (n + 1) =
          leadingIntAux (List.map digitChar tl ++ rest) (x * 10 + m) (n + 1) := rfl
      rw [hshow, ih (x * 10 + m) (n + 1) htl hbtl, hacc, List.length_cons]
      have hlen : n + 1 + tl.length = n + (tl.length + 1) := by omega
      rw [hlen]

theorem leadingFractionAux_append {ds : List Nat} {rest : List Char} (x sc n : Nat)
    (hds : ∀ m ∈ ds, m < 10) (hrest : headNotDigit rest)
    (hbound : accVal x ds ≤ 9223372036854775808) :
    leadingFractionAux (ds.map digitChar ++ rest) x sc n false =
      (accVal x ds, sc * 10 ^ ds.length, n + ds.length, rest) := by
  induction ds generalizing x sc n with
  | nil =>
      cases rest with
      | nil => simp [leadingFractionAux, accVal]
      | cons c t =>
          have hc : c.isDigit = false := hrest
          simp [leadingFractionAux, hc, accVal]
  | cons m tl ih =>
      have hm : m < 10 := hds m (by simp)
      have htl : ∀ a ∈ tl, a < 10 := fun a ha => hds a (by simp [ha])
      have hacc : accVal x (m :: tl) = accVal (x * 10 + m) tl := by simp [accVal]
      have hxm : x * 10 + m ≤ 9223372036854775808 := by
        have hge := accVal_ge (x * 10 + m) tl
        rw [hacc] at hbound
        omega
      have hx : ¬ (x > 922337203685477580) := by omega
      have hy : ¬ (x * 10 + m > 9223372036854775808) := by omega
      have hbtl : accVal (x * 10 + m) tl ≤ 9223372036854775808 := by rwa [hacc] at hbound
      simp only [List.map_cons, List.cons_append, leadingFractionAux, digitChar_isDigit hm,
        if_true, Bool.false_eq_true, if_false, charDigit_digitChar hm, hx, hy]
      have hshow : leadingFractionAux ((List.map digitChar tl).append rest)
            (x * 10 + m) (sc * 10) (n + 1) false =
          leadingFractionAux (List.map digitChar tl ++ rest)
            (x * 10 + m) (sc * 10) (n + 1) false := rfl
      rw [hshow, ih (x * 10 + m) (sc * 10) (n + 1) htl hbtl]
      rw [hacc, List.length_cons, pow_succ]
      have h1 : sc * 10 * 10 ^ tl.length = sc * (10 ^ tl.length * 10) := by ring
      have h2 : n + 1 + tl.length = n + (tl.length + 1) := by omega
      rw [h1, h2]

theorem takeUnit_append {uc rest : List Char}
    (hu : ∀ c ∈ uc, ¬ (c = '.' ∨ c.isDigit = true))
    (hrest : headDotOrDigit rest) :
    takeUnit (uc ++ rest) = (uc, rest) := by
  induction uc with
  | nil =>
      cases rest with
      | nil => rfl
      | cons c t =>
          have hc : c = '.' ∨ c.isDigit = true := hrest
          simp [takeUnit, hc]
  | cons c t ih =>
      have hc := hu c (by simp)
      have ht : ∀ a ∈ t, ¬ (a = '.' ∨ a.isDigit = true) := fun a ha => hu a (by simp [ha])
      simp [takeUnit, hc, ih ht]

theorem fmtFracDigits_lt {v p : Nat} {pr : Bool} : ∀ m ∈ fmtFracDigits v p pr, m < 10 := by
  induction p generalizing v pr with
  | zero => simp [fmtFracDigits]
  | succ q ih =>
      intro m hm
      simp only [fmtFracDigits] at hm
      split at hm
      · rcases List.mem_append.mp hm with h | h
        · exact ih m h
        · have : m = v % 10 := by simpa using h
          omega
      · exact ih m hm

theorem fmtFracDigits_true (v p : Nat) :
    (fmtFracDigits v p true).length = p ∧
    accVal 0 (fmtFracDigits v p true) = v % 10 ^ p := by
  induction p generalizing v with
  | zero => simp [fmtFracDigits, accVal, Nat.mod_one]
  | succ q ih =>
      obtain ⟨hlen, hval⟩ := ih (v / 10)
      have hstep : fmtFracDigits v (q + 1) true = fmtFracDigits (v / 10) q true ++ [v % 10] := by
        simp [fmtFracDigits]
      constructor
      · rw [hstep]
        simp [hlen]
      · rw [hstep, accVal_append, hval]
        show (v / 10 % 10 ^ q) * 10 + v % 10 = _
        rw [mod_ten_pow_succ]

theorem fmtFracDigits_false_spec (v p : Nat) :
    (fmtFracDigits v p false).length ≤ p ∧
    accVal 0 (fmtFracDigits v p false) * 10 ^ (p - (fmtFracDigits v p false).length) =
      v % 10 ^ p ∧
    (fmtFracDigits v p false = [] ↔ v % 10 ^ p = 0) := by
  induction p generalizing v with
  | zero => simp [fmtFracDigits, accVal, Nat.mod_one]
  | succ q ih =>
      by_cases hd : v % 10 = 0
      · have hstep : fmtFracDigits v (q + 1) false = fmtFracDigits (v / 10) q false := by
          simp [fmtFracDigits, hd]
        obtain ⟨ihlen, ihval, ihnil⟩ := ih (v / 10)
        have hmod : v % 10 ^ (q + 1) = (v / 10 % 10 ^ q) * 10 := by
          rw [mod_ten_pow_succ, hd]
          omega
        refine ⟨?_, ?_, ?_⟩
        · rw [hstep]; omega
        · rw [hstep]
          have hsub : q + 1 - (fmtFracDigits (v / 10) q false).length =
              (q - (fmtFracDigits (v / 10) q false).length) + 1 := by omega
          rw [hsub, pow_succ, ← mul_assoc, ihval, hmod]
        · rw [hstep, ihnil, hmod]
          constructor
          · intro h; rw [h]
          · intro h; omega
      · have hstep : fmtFracDigits v (q + 1) false =
            fmtFracDigits (v / 10) q true ++ [v % 10] := by
          simp [fmtFracDigits, hd]
        obtain ⟨hlen, hval⟩ := fmtFracDigits_true (v / 10) q
        have hv : accVal 0 (fmtFracDigits (v / 10) q true ++ [v % 10]) = v % 10 ^ (q + 1) := by
          rw [accVal_append, hval]
          show (v / 10 % 10 ^ q) * 10 + v % 10 = _
          rw [mod_ten_pow_succ]
        refine ⟨?_, ?_, ?_⟩
        · rw [hstep]; simp [hlen]
        · rw [hstep]
          have hfull : (q + 1) - (fmtFracDigits (v / 10) q true ++ [v % 10]).length = 0 := by
            simp [hlen]
          rw [hfull, pow_zero, mul_one, hv]
        · rw [hstep]
          have hne : v % 10 ^ (q + 1) ≠ 0 := by
            have : v % 10 ^ (q + 1) % 10 = v % 10 := by
              have hdvd : (10 : Nat) ∣ 10 ^ (q + 1) := dvd_pow_self 10 (Nat.succ_ne_zero q)
              exact Nat.mod_mod_of_dvd v hdvd
            intro h0
            rw [h0] at this
            simp at this
            omega
          simp [hne]

/-! ### Shape lemmas for printed durations -/

theorem mem_fmtInt_isDigit {c : Char} {n : Nat} (h : c ∈ fmtInt n) : c.isDigit = true := by
  rcases List.mem_map.mp h with ⟨m, hm, rfl⟩
  exact digitChar_isDigit (intDigits_lt m hm)

theorem fracPart_shape (v p : Nat) :
    fracPart v p = [] ∨ fracPart v p = '.' :: (fmtFracDigits v p false).map digitChar := by
  by_cases h : fmtFracDigits v p false = []
  · exact Or.inl (by simp [fracPart, h])
  · exact Or.inr (by simp [fracPart, h])

theorem mem_fracPart {c : Char} {v p : Nat} (h : c ∈ fracPart v p) :
    c = '.' ∨ c.isDigit = true := by
  rcases fracPart_shape v p with hs | hs
  · rw [hs] at h
    simp at h
  · rw [hs] at h
    rcases List.mem_cons.mp h with h1 | h1
    · exact Or.inl h1
    · rcases List.mem_map.mp h1 with ⟨m, hm, rfl⟩
      exact Or.inr (digitChar_isDigit (fmtFracDigits_lt m hm))

theorem mem_goDurationCore {u : Nat} {c : Char} (h : c ∈ goDurationCore u) : c ≠ '"' := by
  have hInt : ∀ n : Nat, c ∈ fmtInt n → c ≠ '"' := fun n hn =>
    isDigit_ne_quote (mem_fmtInt_isDigit hn)
  have hFrac : ∀ v p : Nat, c ∈ fracPart v p → c ≠ '"' := by
    intro v p hf
    rcases mem_fracPart hf with h1 | h1
    · subst h1; decide
    · exact isDigit_ne_quote h1
  unfold goDurationCore at h
  split at h
  · split at h
    · rcases List.mem_cons.mp h with rfl | h
      · decide
      · rcases List.mem_cons.mp h with rfl | h
        · decide
        · simp at h
    · split at h
      · simp only [List.mem_append, List.mem_cons, List.not_mem_nil, or_false] at h
        rcases h with h | rfl | rfl
        · exact hInt u h
        · decide
        · decide
      · split at h
        · simp only [List.append_assoc, List.mem_append, List.mem_cons, List.not_mem_nil,
            or_false] at h
          rcases h with h | h | rfl | rfl
          · exact hInt _ h
          · exact hFrac _ _ h
          · decide
          · decide
        · simp only [List.append_assoc, List.mem_append, List.mem_cons, List.not_mem_nil,
            or_false] at h
          rcases h with h | h | rfl | rfl
          · exact hInt _ h
          · exact hFrac _ _ h
          · decide
          · decide
  · split at h
    · simp only [List.append_assoc, List.mem_append, List.mem_cons, List.not_mem_nil,
        or_false] at h
      rcases h with h | h | rfl
      · exact hInt _ h
      · exact hFrac _ _ h
      · decide
    · split at h
      · simp only [List.append_assoc, List.mem_append, List.mem_cons, List.not_mem_nil,
          or_false] at h
        rcases h with h | rfl | h | h | rfl
        · exact hInt _ h
        · decide
        · exact hInt _ h
        · exact hFrac _ _ h
        · decide
      · simp only [List.append_assoc, List.mem_append, List.mem_cons, List.not_mem_nil,
          or_false] at h
        rcases h with h | rfl | h | rfl | h | h | rfl
        · exact hInt _ h
        · decide
        · exact hInt _ h
        · decide
        · exact hInt _ h
        · exact hFrac _ _ h
        · decide

theorem goDurationChars_ne_quote {d : Int} {c : Char} (h : c ∈ goDurationChars d) :
    c ≠ '"' := by
  unfold goDurationChars at h
  split at h
  · rcases List.mem_cons.mp h with rfl | h
    · decide
    · exact mem_goDurationCore h
  · exact mem_goDurationCore h

theorem filter_ne_quote {l : List Char} (hl : ∀ a ∈ l, a ≠ '"') :
    l.filter (fun c => c ≠ '"') = l :=
  List.filter_eq_self.mpr (fun a ha => by simpa using hl a ha)

theorem unmarshal_marshal_reduction (d : Int) :
    goUnmarshalDuration (goMarshalDuration d) = goParseDurationChars (goDurationChars d) := by
  unfold goUnmarshalDuration goMarshalDuration
  congr 1
  show ('"' :: goDurationChars d ++ ['"']).filter (fun c => c ≠ '"') = _
  rw [List.cons_append, List.filter_cons]
  simp only [ne_eq, not_true_eq_false, decide_False, Bool.false_eq_true, if_false]
  rw [List.filter_append, filter_ne_quote (fun a ha => goDurationChars_ne_quote ha)]
  simp

theorem fracScan_not_dot {c : Char} (t : List Char) (hc : c ≠ '.') :
    fracScan (c :: t) = (0, 1, 0, c :: t) := by
  unfold fracScan
  split
  · next heq =>
      rw [List.cons.injEq] at heq
      exact absurd heq.1 hc
  · rfl

theorem fracPart_eq_nil_iff (v p : Nat) :
    fracPart v p = [] ↔ fmtFracDigits v p false = [] := by
  by_cases h : fmtFracDigits v p false = []
  · simp [fracPart, h]
  · simp [fracPart, h]

theorem headNotDigit_of_unit {uc rest : List Char} (hucne : uc ≠ [])
    (hucchars : ∀ c ∈ uc, ¬ (c = '.' ∨ c.isDigit = true)) :
    headNotDigit (uc ++ rest) := by
  cases uc with
  | nil => exact absurd rfl hucne
  | cons u0 ut =>
      have h := hucchars u0 (by simp)
      show u0.isDigit = false
      cases hie : u0.isDigit with
      | false => rfl
      | true => exact absurd (Or.inr hie) h

/-! ### One `ParseDuration` loop iteration on a printed term -/

theorem parse_step_plain (fuel I unit d : Nat) (uc rest : List Char)
    (hunit : unitMultiplier uc = some unit)
    (hucne : uc ≠ [])
    (hucchars : ∀ c ∈ uc, ¬ (c = '.' ∨ c.isDigit = true))
    (hrest : headDotOrDigit rest)
    (hI20 : I < 10 ^ 20)
    (hImax : I ≤ 9223372036854775808 / unit)
    (hdacc : d + I * unit ≤ 9223372036854775808) :
    parseTermsFuel (fuel + 1) (fmtInt I ++ uc ++ rest) d =
      parseTermsFuel fuel rest (d + I * unit) := by
  obtain ⟨d0, t0, hdt, hd0⟩ := intDigits_cons I
  obtain ⟨u0, ut, huc⟩ : ∃ u0 ut, uc = u0 :: ut := by
    cases uc with
    | nil => exact absurd rfl hucne
    | cons a b => exact ⟨a, b, rfl⟩
  have hXnd : headNotDigit (uc ++ rest) := headNotDigit_of_unit hucne hucchars
  have hIb : I ≤ 9223372036854775808 := le_trans hImax (Nat.div_le_self _ _)
  have hacc : accVal 0 (intDigits I) = I := accVal_intDigits hI20
  have hlist : fmtInt I ++ uc ++ rest =
      digitChar d0 :: (t0.map digitChar ++ (uc ++ rest)) := by
    rw [fmtInt, hdt]
    simp
  have hscan2 : leadingIntAux (digitChar d0 :: (t0.map digitChar ++ (uc ++ rest))) 0 0 =
      some (I, (intDigits I).length, uc ++ rest) := by
    have e : digitChar d0 :: (t0.map digitChar ++ (uc ++ rest)) =
        (intDigits I).map digitChar ++ (uc ++ rest) := by
      rw [hdt]; simp
    rw [e, leadingIntAux_append 0 0 intDigits_lt hXnd (by rw [hacc]; exact hIb), hacc]
    simp
  have hu0 := hucchars u0 (by rw [huc]; simp)
  have hu0dot : u0 ≠ '.' := fun he => hu0 (Or.inl he)
  have hfs : fracScan (uc ++ rest) = (0, 1, 0, uc ++ rest) := by
    rw [huc, List.cons_append]
    exact fracScan_not_dot _ hu0dot
  have hnpre : (intDigits I).length ≠ 0 := by rw [hdt]; simp
  have htu : takeUnit (uc ++ rest) = (uc, rest) := takeUnit_append hucchars hrest
  rw [hlist]
  simp only [parseTermsFuel]
  rw [if_neg (by simp [digitChar_isDigit hd0])]
  simp only [hscan2, hfs, htu]
  rw [if_neg (by simp [hnpre]), if_neg hucne]
  simp only [hunit]
  rw [if_neg (by omega)]
  simp only [Nat.zero_mul, Nat.zero_div, Nat.add_zero]
  rw [if_neg (by simp), if_neg (by omega)]

theorem parse_step_frac (fuel I v prec d : Nat) (uc rest : List Char)
    (hunit : unitMultiplier uc = some (10 ^ prec))
    (hucne : uc ≠ [])
    (hucchars : ∀ c ∈ uc, ¬ (c = '.' ∨ c.isDigit = true))
    (hrest : headDotOrDigit rest)
    (hI20 : I < 10 ^ 20)
    (hImax : I ≤ 9223372036854775808 / 10 ^ prec)
    (hprec : prec ≤ 9)
    (hdacc : d + (I * 10 ^ prec + v % 10 ^ prec) ≤ 9223372036854775808) :
    parseTermsFuel (fuel + 1) (fmtInt I ++ fracPart v prec ++ uc ++ rest) d =
      parseTermsFuel fuel rest (d + (I * 10 ^ prec + v % 10 ^ prec)) := by
  rcases fracPart_shape v prec with hfp | hfp
  · have hz : v % 10 ^ prec = 0 :=
      ((fmtFracDigits_false_spec v prec).2.2).mp ((fracPart_eq_nil_iff v prec).mp hfp)
    rw [hfp, List.append_nil, hz]
    rw [hz] at hdacc
    simp only [Nat.add_zero]
    exact parse_step_plain fuel I (10 ^ prec) d uc rest hunit hucne hucchars hrest hI20 hImax
      (by omega)
  · obtain ⟨d0, t0, hdt, hd0⟩ := intDigits_cons I
    obtain ⟨u0, ut, huc⟩ : ∃ u0 ut, uc = u0 :: ut := by
      cases uc with
      | nil => exact absurd rfl hucne
      | cons a b => exact ⟨a, b, rfl⟩
    have hXnd : headNotDigit (uc ++ rest) := headNotDigit_of_unit hucne hucchars
    have hIb : I ≤ 9223372036854775808 := le_trans hImax (Nat.div_le_self _ _)
    have hacc : accVal 0 (intDigits I) = I := accVal_intDigits hI20
    have hkle : (fmtFracDigits v prec false).length ≤ prec := (fmtFracDigits_false_spec v prec).1
    have hfb : accVal 0 (fmtFracDigits v prec false) ≤ 9223372036854775808 := by
      have hflt : accVal 0 (fmtFracDigits v prec false) < 10 ^ (fmtFracDigits v prec false).length :=
        accVal_lt (fun m hm => fmtFracDigits_lt m hm)
      have h1 : (10 : Nat) ^ (fmtFracDigits v prec false).length ≤ 10 ^ 9 :=
        Nat.pow_le_pow_right (by norm_num) (le_trans hkle hprec)
      have h2 : (10 : Nat) ^ 9 ≤ 9223372036854775808 := by norm_num
      omega
    have hlist : fmtInt I ++ fracPart v prec ++ uc ++ rest =
        digitChar d0 :: (t0.map digitChar ++
          ('.' :: ((fmtFracDigits v prec false).map digitChar ++ (uc ++ rest)))) := by
      rw [hfp, fmtInt, hdt]
      simp
    have hscan2 : leadingIntAux (digitChar d0 :: (t0.map digitChar ++
          ('.' :: ((fmtFracDigits v prec false).map digitChar ++ (uc ++ rest))))) 0 0 =
        some (I, (intDigits I).length,
          '.' :: ((fmtFracDigits v prec false).map digitChar ++ (uc ++ rest))) := by
      have e : digitChar d0 :: (t0.map digitChar ++
            ('.' :: ((fmtFracDigits v prec false).map digitChar ++ (uc ++ rest)))) =
          (intDigits I).map digitChar ++
            ('.' :: ((fmtFracDigits v prec false).map digitChar ++ (uc ++ rest))) := by
        rw [hdt]; simp
      have hnd : headNotDigit
          ('.' :: ((fmtFracDigits v prec false).map digitChar ++ (uc ++ rest))) := by
        show ('.').isDigit = false
        decide
      rw [e, leadingIntAux_append 0 0 intDigits_lt hnd (by rw [hacc]; exact hIb), hacc]
      simp
    have hfs : fracScan ('.' :: ((fmtFracDigits v prec false).map digitChar ++ (uc ++ rest))) =
        (accVal 0 (fmtFracDigits v prec false),
          1 * 10 ^ (fmtFracDigits v prec false).length,
          0 + (fmtFracDigits v prec false).length, uc ++ rest) := by
      show leadingFractionAux ((fmtFracDigits v prec false).map digitChar ++ (uc ++ rest))
          0 1 0 false = _
      exact leadingFractionAux_append 0 1 0 (fun m hm => fmtFracDigits_lt m hm) hXnd hfb
    have hnpre : (intDigits I).length ≠ 0 := by rw [hdt]; simp
    have htu : takeUnit (uc ++ rest) = (uc, rest) := takeUnit_append hucchars hrest
    have hdiv : accVal 0 (fmtFracDigits v prec false) * 10 ^ prec /
        (1 * 10 ^ (fmtFracDigits v prec false).length) = v % 10 ^ prec := by
      have hsplit : (10 : Nat) ^ prec =
          10 ^ (prec - (fmtFracDigits v prec false).length) *
            10 ^ (fmtFracDigits v prec false).length := by
        rw [← pow_add]
        congr 1
        omega
      calc accVal 0 (fmtFracDigits v prec false) * 10 ^ prec /
            (1 * 10 ^ (fmtFracDigits v prec false).length)
          = accVal 0 (fmtFracDigits v prec false) *
              (10 ^ (prec - (fmtFracDigits v prec false).length) *
                10 ^ (fmtFracDigits v prec false).length) /
              10 ^ (fmtFracDigits v prec false).length := by rw [one_mul, hsplit]
        _ = accVal 0 (fmtFracDigits v prec false) *
              10 ^ (prec - (fmtFracDigits v prec false).length) := by
            rw [← mul_assoc, Nat.mul_div_cancel _ (Nat.pow_pos (by norm_num))]
        _ = v % 10 ^ prec := (fmtFracDigits_false_spec v prec).2.1
    rw [hlist]
    simp only [parseTermsFuel]
    rw [if_neg (by simp [digitChar_isDigit hd0])]
    simp only [hscan2, hfs, htu]
    rw [if_neg (by simp [hnpre]), if_neg hucne]
    simp only [hunit]
    rw [if_neg (by omega)]
    rw [hdiv]
    rw [if_neg (by omega), if_neg (by omega)]

theorem parse_done (f d : Nat) : parseTermsFuel (f + 1) [] d = some d := rfl

theorem fmtInt_length_pos (n : Nat) : 1 ≤ (fmtInt n).length := by
  obtain ⟨d0, t0, hdt, _⟩ := intDigits_cons n
  rw [fmtInt, hdt]
  simp

theorem headDotOrDigit_fmtInt (n : Nat) (X : List Char) :
    headDotOrDigit (fmtInt n ++ X) := by
  obtain ⟨d0, t0, hdt, hd0⟩ := intDigits_cons n
  rw [fmtInt, hdt, List.map_cons, List.cons_append]
  show digitChar d0 = '.' ∨ (digitChar d0).isDigit = true
  exact Or.inr (digitChar_isDigit hd0)

/-- Parsing the printed magnitude recovers the magnitude: the term loop of
`ParseDuration`, started with the printed characters and their length as
fuel, accumulates exactly `u`. -/
theorem parseCore (u : Nat) (hu : u ≤ 9223372036854775808) :
    parseTermsFuel ((goDurationCore u).length + 1) (goDurationCore u) 0 = some u := by
  have e3 : (10 : Nat) ^ 3 = 1000 := by norm_num
  have e6 : (10 : Nat) ^ 6 = 1000000 := by norm_num
  have e9 : (10 : Nat) ^ 9 = 1000000000 := by norm_num
  by_cases h1 : u < 1000000000
  · by_cases h0 : u = 0
    · subst h0
      decide
    · by_cases h2 : u < 1000
      · -- nanoseconds
        have hgc : goDurationCore u = fmtInt u ++ ['n', 's'] ++ [] := by
          unfold goDurationCore nsPerSecond
          rw [if_pos h1, if_neg h0, if_pos h2, List.append_nil]
        rw [hgc, parse_step_plain _ u 1 0 ['n', 's'] [] (by decide)
          (by decide) (by decide) trivial (by omega) (by omega) (by omega)]
        have hL : (fmtInt u ++ ['n', 's'] ++ []).length = ((fmtInt u).length + 1) + 1 := by
          simp
        rw [hL, parse_done]
        congr 1
        omega
      · by_cases h3 : u < 1000000
        · -- microseconds
          have hgc : goDurationCore u =
              fmtInt (u / 1000) ++ fracPart u 3 ++ ['µ', 's'] ++ [] := by
            unfold goDurationCore nsPerSecond
            rw [if_pos h1, if_neg h0, if_neg h2, if_pos h3, List.append_nil]
          rw [hgc, parse_step_frac _ (u / 1000) u 3 0 ['µ', 's'] [] (by decide) (by decide)
            (by decide) trivial (by omega) (by rw [e3]; omega) (by omega) (by rw [e3]; omega)]
          have hL : (fmtInt (u / 1000) ++ fracPart u 3 ++ ['µ', 's'] ++ []).length =
              ((fmtInt (u / 1000)).length + (fracPart u 3).length + 1) + 1 := by
            simp
            omega
          rw [hL, parse_done]
          congr 1
          rw [e3]
          omega
        · -- milliseconds
          have hgc : goDurationCore u =
              fmtInt (u / 1000000) ++ fracPart u 6 ++ ['m', 's'] ++ [] := by
            unfold goDurationCore nsPerSecond
            rw [if_pos h1, if_neg h0, if_neg h2, if_neg h3, List.append_nil]
          rw [hgc, parse_step_frac _ (u / 1000000) u 6 0 ['m', 's'] [] (by decide) (by decide)
            (by decide) trivial (by omega) (by rw [e6]; omega) (by omega) (by rw [e6]; omega)]
          have hL : (fmtInt (u / 1000000) ++ fracPart u 6 ++ ['m', 's'] ++ []).length =
              ((fmtInt (u / 1000000)).length + (fracPart u 6).length + 1) + 1 := by
            simp
            omega
          rw [hL, parse_done]
          congr 1
          rw [e6]
          omega
  · by_cases hm0 : u / 1000000000 / 60 = 0
    · -- seconds only
      have hgc : goDurationCore u =
          fmtInt (u / 1000000000 % 60) ++ fracPart u 9 ++ ['s'] ++ [] := by
        unfold goDurationCore nsPerSecond
        rw [if_neg h1, if_pos hm0, List.append_nil]
      rw [hgc, parse_step_frac _ (u / 1000000000 % 60) u 9 0 ['s'] [] (by decide) (by decide)
        (by decide) trivial (by omega) (by rw [e9]; omega) (by omega) (by rw [e9]; omega)]
      have hL : (fmtInt (u / 1000000000 % 60) ++ fracPart u 9 ++ ['s'] ++ []).length =
          ((fmtInt (u / 1000000000 % 60)).length + (fracPart u 9).length) + 1 := by
        simp
        omega
      rw [hL, parse_done]
      congr 1
      rw [e9]
      omega
    · by_cases hh0 : u / 1000000000 / 60 / 60 = 0
      · -- minutes and seconds
        have hgc : goDurationCore u =
            fmtInt (u / 1000000000 / 60 % 60) ++ ['m'] ++
              (fmtInt (u / 1000000000 % 60) ++ fracPart u 9 ++ ['s']) := by
          unfold goDurationCore nsPerSecond
          rw [if_neg h1, if_neg hm0, if_pos hh0]
        have hL : (fmtInt (u / 1000000000 / 60 % 60) ++ ['m'] ++
            (fmtInt (u / 1000000000 % 60) ++ fracPart u 9 ++ ['s'])).length =
            ((fmtInt (u / 1000000000 / 60 % 60)).length +
              (fmtInt (u / 1000000000 % 60)).length + (fracPart u 9).length + 1) + 1 := by
          simp
          omega
        rw [hgc, hL, parse_step_plain _ (u / 1000000000 / 60 % 60) 60000000000 0 ['m'] _
          (by decide) (by decide) (by decide)
          (by rw [List.append_assoc]; exact headDotOrDigit_fmtInt _ _)
          (by omega) (by omega) (by omega)]
        have hre : fmtInt (u / 1000000000 % 60) ++ fracPart u 9 ++ ['s'] =
            fmtInt (u / 1000000000 % 60) ++ fracPart u 9 ++ ['s'] ++ [] := by simp
        rw [hre, parse_step_frac _ (u / 1000000000 % 60) u 9 _ ['s'] [] (by decide)
          (by decide) (by decide) trivial (by omega) (by rw [e9]; omega) (by omega)
          (by rw [e9]; omega)]
        have hp : (fmtInt (u / 1000000000 / 60 % 60)).length +
            (fmtInt (u / 1000000000 % 60)).length + (fracPart u 9).length =
            ((fmtInt (u / 1000000000 / 60 % 60)).length +
              (fmtInt (u / 1000000000 % 60)).length + (fracPart u 9).length - 1) + 1 := by
          have := fmtInt_length_pos (u / 1000000000 / 60 % 60)
          omega
        rw [hp, parse_done]
        congr 1
        rw [e9]
        omega
      · -- hours, minutes and seconds
        have hgc : goDurationCore u =
            fmtInt (u / 1000000000 / 60 / 60) ++ ['h'] ++
              (fmtInt (u / 1000000000 / 60 % 60) ++ ['m'] ++
                (fmtInt (u / 1000000000 % 60) ++ fracPart u 9 ++ ['s'])) := by
          unfold goDurationCore nsPerSecond
          rw [if_neg h1, if_neg hm0, if_neg hh0]
        have hL : (fmtInt (u / 1000000000 / 60 / 60) ++ ['h'] ++
            (fmtInt (u / 1000000000 / 60 % 60) ++ ['m'] ++
              (fmtInt (u / 1000000000 % 60) ++ fracPart u 9 ++ ['s']))).length =
            ((fmtInt (u / 1000000000 / 60 / 60)).length +
              (fmtInt (u / 1000000000 / 60 % 60)).length +
              (fmtInt (u / 1000000000 % 60)).length + (fracPart u 9).length + 1 + 1) + 1 := by
          simp
          omega
        rw [hgc, hL, parse_step_plain _ (u / 1000000000 / 60 / 60) 3600000000000 0 ['h'] _
          (by decide) (by decide) (by decide)
          (by rw [List.append_assoc]; exact headDotOrDigit_fmtInt _ _)
          (by omega) (by omega) (by omega)]
        rw [parse_step_plain _ (u / 1000000000 / 60 % 60) 60000000000 _ ['m'] _
          (by decide) (by decide) (by decide)
          (by rw [List.append_assoc]; exact headDotOrDigit_fmtInt _ _)
          (by omega) (by omega) (by omega)]
        have hre : fmtInt (u / 1000000000 % 60) ++ fracPart u 9 ++ ['s'] =
            fmtInt (u / 1000000000 % 60) ++ fracPart u 9 ++ ['s'] ++ [] := by simp
        rw [hre, parse_step_frac _ (u / 1000000000 % 60) u 9 _ ['s'] [] (by decide)
          (by decide) (by decide) trivial (by omega) (by rw [e9]; omega) (by omega)
          (by rw [e9]; omega)]
        have hp : (fmtInt (u / 1000000000 / 60 / 60)).length +
            (fmtInt (u / 1000000000 / 60 % 60)).length +
            (fmtInt (u / 1000000000 % 60)).length + (fracPart u 9).length =
            ((fmtInt (u / 1000000000 / 60 / 60)).length +
              (fmtInt (u / 1000000000 / 60 % 60)).length +
              (fmtInt (u / 1000000000 % 60)).length + (fracPart u 9).length - 1) + 1 := by
          have := fmtInt_length_pos (u / 1000000000 / 60 / 60)
          omega
        rw [hp, parse_done]
        congr 1
        rw [e9]
        omega

theorem cons_of_fmtInt (n : Nat) (X : List Char) :
    ∃ c cs, fmtInt n ++ X = c :: cs ∧ c.isDigit = true := by
  obtain ⟨d0, t0, hdt, hd0⟩ := intDigits_cons n
  exact ⟨digitChar d0, t0.map digitChar ++ X, by rw [fmtInt, hdt]; simp,
    digitChar_isDigit hd0⟩

theorem goDurationCore_head (u : Nat) :
    ∃ c cs, goDurationCore u = c :: cs ∧ c.isDigit = true := by
  unfold goDurationCore nsPerSecond
  split
  · split
    · exact ⟨'0', ['s'], rfl, by decide⟩
    · split
      · exact cons_of_fmtInt _ _
      · split
        · rw [List.append_assoc]
          exact cons_of_fmtInt _ _
        · rw [List.append_assoc]
          exact cons_of_fmtInt _ _
  · split
    · rw [List.append_assoc]
      exact cons_of_fmtInt _ _
    · split
      · rw [List.append_assoc]
        exact cons_of_fmtInt _ _
      · rw [List.append_assoc]
        exact cons_of_fmtInt _ _

theorem goDurationCore_length (u : Nat) : 2 ≤ (goDurationCore u).length := by
  have h1 := fmtInt_length_pos u
  have h2 := fmtInt_length_pos (u / 1000)
  have h3 := fmtInt_length_pos (u / 1000000)
  have h4 := fmtInt_length_pos (u / 1000000000 % 60)
  have h5 := fmtInt_length_pos (u / 1000000000 / 60 % 60)
  have h6 := fmtInt_length_pos (u / 1000000000 / 60 / 60)
  unfold goDurationCore nsPerSecond
  repeat' split
  all_goals simp [List.length_append]
  all_goals omega

theorem goDurationCore_ne_nil (u : Nat) : goDurationCore u ≠ [] := by
  intro he
  have h := goDurationCore_length u
  rw [he] at h
  simp at h

theorem goDurationCore_ne_zero_string (u : Nat) : goDurationCore u ≠ ['0'] := by
  intro he
  have h := goDurationCore_length u
  rw [he] at h
  simp at h

/-- Printing with Go's `Duration.String` and parsing with `time.ParseDuration`
returns the original int64 duration. -/
theorem goParse_goPrint (d : Int) (hlo : -(2 ^ 63) ≤ d) (hhi : d < 2 ^ 63) :
    goParseDurationChars (goDurationChars d) = some d := by
  have hu : d.natAbs ≤ 9223372036854775808 := by omega
  have hcore := parseCore d.natAbs hu
  obtain ⟨c, cs, hcc, hcd⟩ := goDurationCore_head d.natAbs
  have hne0 : goDurationCore d.natAbs ≠ ['0'] := goDurationCore_ne_zero_string d.natAbs
  have hnen : goDurationCore d.natAbs ≠ [] := goDurationCore_ne_nil d.natAbs
  by_cases hneg : d < 0
  · rw [goDurationChars, if_pos hneg]
    show goParseDurationChars ('-' :: goDurationCore d.natAbs) = some d
    simp only [goParseDurationChars]
    rw [if_true]
    unfold parseSigned
    rw [if_neg hne0, if_neg hnen, hcore]
    show (if true = true then some (-(d.natAbs : Int))
      else if d.natAbs > 9223372036854775807 then none else some (d.natAbs : Int)) = some d
    rw [if_pos rfl]
    congr 1
    omega
  · rw [goDurationChars, if_neg hneg, hcc]
    have hcm : c ≠ '-' := by
      intro he
      rw [he] at hcd
      exact absurd hcd (by decide)
    have hcp : c ≠ '+' := by
      intro he
      rw [he] at hcd
      exact absurd hcd (by decide)
    simp only [goParseDurationChars]
    rw [if_neg hcm, if_neg hcp, ← hcc]
    unfold parseSigned
    rw [if_neg hne0, if_neg hnen, hcore]
    have hbound : ¬ (d.natAbs > 9223372036854775807) := by omega
    show (if false = true then some (-(d.natAbs : Int))
      else if d.natAbs > 9223372036854775807 then none else some (d.natAbs : Int)) = some d
    rw [if_neg (by decide), if_neg hbound]
    congr 1
    omega

end Powerwall

namespace Powerwall

/-! ## Claims C1, C3, C4 -/

/-- C1 as stated fails: for the configured ceiling R = 7 requests/minute the
code computes `time.Duration(60/7) * time.Second` = 8 s using Go integer
division, which is not 60/7 s. -/
theorem C1_interval_counterexample :
    ¬ ((rateLimitIntervalNs 7 : ℚ) = specIntervalNs 7) := by
  norm_num [rateLimitIntervalNs, specIntervalNs, nsPerSecond]

/-- C1 amended: the minimum interval computed by `rateLimitWait` equals
⌊60/R⌋ seconds (Go integer division), successive requests are spaced by at
least that much, and the floored interval agrees with the spec's 60/R exactly
when R divides 60. -/
theorem C1_rateLimitWait_spacing (rpm : Nat) (lastReq now : Int)
    (hpos : 0 < rpm) :
    rateLimitIntervalNs rpm = ((60 / rpm : Nat) : Int) * (nsPerSecond : Int) ∧
    (rateLimitWait rpm lastReq now).2 - lastReq ≥ rateLimitIntervalNs rpm ∧
    ((rateLimitIntervalNs rpm : ℚ) = specIntervalNs rpm ↔ rpm ∣ 60) := by
  refine ⟨rfl, ?_, ?_⟩
  · unfold rateLimitWait
    dsimp only
    split
    · omega
    · omega
  · unfold rateLimitIntervalNs specIntervalNs nsPerSecond
    have hrpmQ : (rpm : ℚ) ≠ 0 := Nat.cast_ne_zero.mpr hpos.ne'
    constructor
    · intro h
      push_cast at h
      have h9 : ((60 / rpm : Nat) : ℚ) = 60 / (rpm : ℚ) := by
        have hns : (1000000000 : ℚ) ≠ 0 := by norm_num
        exact mul_right_cancel₀ hns h
      have hmul : ((60 / rpm : Nat) : ℚ) * (rpm : ℚ) = 60 := by
        rw [h9]; field_simp
      have hmulNat : (60 / rpm) * rpm = 60 := by exact_mod_cast hmul
      exact hmulNat ▸ dvd_mul_left rpm (60 / rpm)
    · intro hdvd
      have hq2 : (((60 / rpm : Nat) : Int) : ℚ) = (60 : ℚ) / (rpm : ℚ) := by
        rw [Int.cast_natCast, Nat.cast_div hdvd hrpmQ]; norm_num
      rw [Int.cast_mul, hq2]
      norm_num

/-- Witness for `C1_rateLimitWait_spacing` at R = 60, lastReq = 0, now = 0. -/
theorem C1_rateLimitWait_spacing_witness :
    rateLimitIntervalNs 60 = ((60 / 60 : Nat) : Int) * (nsPerSecond : Int) ∧
    (rateLimitWait 60 0 0).2 - 0 ≥ rateLimitIntervalNs 60 ∧
    ((rateLimitIntervalNs 60 : ℚ) = specIntervalNs 60 ↔ 60 ∣ 60) :=
  C1_rateLimitWait_spacing 60 0 0 (by decide)

/-- C3 as stated fails at the boundary: with `now + 5 min` exactly equal to
the stored expiry, the code's `After` comparison is strict and returns
`false`, while the claim requires `true`. -/
theorem C3_boundary_counterexample :
    ¬ (isTokenExpired 0 (5 * 60 * (nsPerSecond : Int)) = true ↔
       (0 : Int) + 5 * 60 * (nsPerSecond : Int) ≥ 5 * 60 * (nsPerSecond : Int)) := by
  decide

/-- C3 amended: `IsTokenExpired` returns `true` exactly when the current time
plus 5 minutes is strictly greater than the stored expiry; at the boundary
where they are equal it returns `false`. -/
theorem C3_isTokenExpired_iff (now tokenExpiry : Int) :
    isTokenExpired now tokenExpiry = true ↔
      now + 5 * 60 * (nsPerSecond : Int) > tokenExpiry := by
  simp [isTokenExpired, gt_iff_lt]

/-- C4: on a successful refresh the stored access token becomes the response's
access token, the stored refresh token is replaced only when the response
carries a non-empty one (otherwise unchanged), and the stored expiry becomes
now plus `expires_in` seconds. -/
theorem C4_applyTokenRefresh (c : ClientTokens) (r : TokenResponse) (now : Int) :
    (applyTokenRefresh c r now).accessToken = r.accessToken ∧
    (applyTokenRefresh c r now).refreshToken =
      (if r.refreshToken = "" then c.refreshToken else r.refreshToken) ∧
    (applyTokenRefresh c r now).tokenExpiry = now + r.expiresIn * (nsPerSecond : Int) := by
  refine ⟨rfl, ?_, rfl⟩
  by_cases h : r.refreshToken = "" <;> simp [applyTokenRefresh, h]

/-! ## Claims C2, C7, C8, C10 -/

/-- C2: the status-code mapping of `doFleetRequest` is exactly the one the
claim describes — 200/201 return the raw body, 401 a token-expired error of
kind "access" with the recorded expiry, 429 a rate-limit error whose
retry-after comes from the Retry-After header when present (60 when absent or
unparsable) and whose reset time is now + retry-after, anything else a generic
API error with URL, status and body verbatim. -/
theorem C2_doFleetRequest_mapping (endpoint url : String)
    (tokenExpiry realtimeRPM now status : Int) (body retryAfterHeader : String) :
    handleFleetResponse endpoint url tokenExpiry realtimeRPM now status body retryAfterHeader =
    claimedFleetResponse endpoint url tokenExpiry realtimeRPM now status body retryAfterHeader := by
  unfold handleFleetResponse claimedFleetResponse
  by_cases h0 : retryAfterHeader = "" <;>
    cases hs : sscanfDec retryAfterHeader <;> simp [h0, hs]

/-- C7: `GetEnergyProducts` returns exactly the sublist of entries whose
resource type equals "solar" or "battery" (exact match), preserving the
original relative order. -/
theorem C7_getEnergyProducts_filter (ps : List EnergyProduct) :
    getEnergyProductsFilter ps =
      ps.filter (fun p => p.resourceType = "solar" ∨ p.resourceType = "battery") ∧
    (getEnergyProductsFilter ps).Sublist ps := by
  have hfill : getEnergyProductsFilter ps =
      ps.filter (fun p => p.resourceType = "solar" ∨ p.resourceType = "battery") := by
    induction ps with
    | nil => rfl
    | cons p ps ih =>
        by_cases h : p.resourceType = "solar" ∨ p.resourceType = "battery" <;>
          simp [getEnergyProductsFilter, List.filter, h, ih]
  exact ⟨hfill, hfill ▸ List.filter_sublist ps⟩

/-- Narrowing 1 + 2^(-24), an exact float64 value, to float32 loses it: the
24-bit significand cannot hold the trailing bit and the halfway case rounds
to the even neighbour 1. -/
theorem float32Round_one_ulp : float32Round (16777217 / 16777216) = 1 := by
  have hq : ¬ ((16777217 / 16777216 : ℚ) = 0) := by norm_num
  have hneg : ¬ ((16777217 / 16777216 : ℚ) < 0) := by norm_num
  have habs : |(16777217 / 16777216 : ℚ)| = 16777217 / 16777216 := by
    rw [abs_of_pos]
    norm_num
  have hexp : binExp (16777217 / 16777216) = 0 := by
    unfold binExp
    rw [if_pos (by norm_num)]
    simp only [expUp]
    rw [if_neg (by norm_num)]
  have hmax : max (0 : Int) (-126) - 23 = -23 := by decide
  have harg : (16777217 / 16777216 : ℚ) / 2 ^ (-23 : Int) = 16777217 / 2 := by
    norm_num
  have hfl : (⌊(16777217 / 2 : ℚ)⌋ : Int) = 8388608 := by norm_num
  have hrnd : roundHalfEvenZ (16777217 / 2) = 8388608 := by
    unfold roundHalfEvenZ
    rw [hfl, if_neg (by norm_num), if_neg (by norm_num), if_pos (by decide)]
  unfold float32Round
  rw [if_neg hq, if_neg hneg, habs, hexp, hmax, harg, hrnd]
  norm_num

/-- C8 as stated fails: the source narrows each power with `float32(...)`
before storing it (api.go lines 209, 217, 224, 231), so for a response with
solar_power = 1 + 2^(-24) the stored `InstantPower` is the rounded float32
value 1, not the field value. -/
theorem C8_value_counterexample :
    ¬ ((getMetersAggregates ⟨some (16777217 / 16777216), none, none, none, none, "", false,
        0⟩).lookup "solar" = some ⟨0, 16777217 / 16777216⟩) := by
  have hlook : (getMetersAggregates ⟨some (16777217 / 16777216), none, none, none, none, "",
      false, 0⟩).lookup "solar" = some ⟨0, float32Round (16777217 / 16777216)⟩ := rfl
  intro h
  rw [hlook, float32Round_one_ulp, Option.some.injEq, MeterAggregates.mk.injEq] at h
  exact absurd h.2 (by norm_num)

/-- C8 amended: the aggregates map has an entry for a power category exactly
when the corresponding optional field is present in the live-status response
(the grid category is keyed "site" in the source); a present entry carries
the float32 narrowing of the field's value as `InstantPower` and the response
timestamp as `LastCommunicationTime`; absent fields yield no entry. -/
theorem C8_getMetersAggregates (ls : LiveStatus) :
    (getMetersAggregates ls).lookup "solar" =
      ls.solarPower.map (fun p => ⟨ls.timestamp, float32Round p⟩) ∧
    (getMetersAggregates ls).lookup "battery" =
      ls.batteryPower.map (fun p => ⟨ls.timestamp, float32Round p⟩) ∧
    (getMetersAggregates ls).lookup "site" =
      ls.gridPower.map (fun p => ⟨ls.timestamp, float32Round p⟩) ∧
    (getMetersAggregates ls).lookup "load" =
      ls.loadPower.map (fun p => ⟨ls.timestamp, float32Round p⟩) := by
  rcases ls with ⟨so, ba, lo, gr, pe, gs, ga, ts⟩
  cases so <;> cases ba <;> cases lo <;> cases gr <;>
    simp [getMetersAggregates, List.lookup]

/-- C10: when `percentage_charged` is absent `GetSOE` still succeeds with a
zero-filled percentage, and when present the percentage equals the field
value. -/
theorem C10_getSOE (ls : LiveStatus) :
    (ls.percentageCharged = none → getSOEPercentage ls = 0) ∧
    (∀ p, ls.percentageCharged = some p → getSOEPercentage ls = p) := by
  constructor
  · intro h; simp [getSOEPercentage, h]
  · intro p h; simp [getSOEPercentage, h]

/-- C5: with no site selected (identifier zero), every site-scoped operation
fails immediately with the local precondition error and issues no HTTP
request. -/
theorem C5_site_gate (startDate endDate period kind name : String)
    (timeZone : List String) (percent : Int) (enabled : Bool) :
    GetStatus 0 = ⟨[], some noSiteSelectedMsg⟩ ∧
    GetSiteInfo 0 = ⟨[], some noSiteSelectedMsg⟩ ∧
    GetMetersAggregates 0 = ⟨[], some noSiteSelectedMsg⟩ ∧
    GetSOE 0 = ⟨[], some noSiteSelectedMsg⟩ ∧
    GetGridStatus 0 = ⟨[], some noSiteSelectedMsg⟩ ∧
    GetTelemetryHistory 0 startDate endDate timeZone = ⟨[], some noSiteSelectedMsg⟩ ∧
    GetEnergyHistory 0 startDate endDate period timeZone = ⟨[], some noSiteSelectedMsg⟩ ∧
    GetBackupHistory 0 startDate endDate period timeZone = ⟨[], some noSiteSelectedMsg⟩ ∧
    GetCalendarHistory 0 kind startDate endDate period timeZone = ⟨[], some noSiteSelectedMsg⟩ ∧
    SetBackupReserve 0 percent = ⟨[], some noSiteSelectedMsg⟩ ∧
    SetSiteName 0 name = ⟨[], some noSiteSelectedMsg⟩ ∧
    SetStormMode 0 enabled = ⟨[], some noSiteSelectedMsg⟩ :=
  ⟨rfl, rfl, rfl, rfl, rfl, rfl, rfl, rfl, rfl, rfl, rfl, rfl⟩

/-- C6: with a site selected, a period outside day/week/month/year makes the
calendar-style history queries fail locally with a validation error and no
request, an invalid kind does the same for the generic calendar query, and
valid arguments pass the local validation and issue the request. -/
theorem C6_history_validation (selectedSiteID : Int) (hs : selectedSiteID ≠ 0)
    (kind startDate endDate period : String) (timeZone : List String) :
    (validPeriods period = false →
      GetEnergyHistory selectedSiteID startDate endDate period timeZone =
        ⟨[], some ("invalid period for energy history: " ++ period ++
          " (supported: day, week, month, year)")⟩ ∧
      GetBackupHistory selectedSiteID startDate endDate period timeZone =
        ⟨[], some ("invalid period for backup history: " ++ period ++
          " (supported: day, week, month, year)")⟩) ∧
    (validKinds kind = false →
      GetCalendarHistory selectedSiteID kind startDate endDate period timeZone =
        ⟨[], some ("invalid kind for calendar history: " ++ kind ++
          " (supported: energy, backup)")⟩) ∧
    (validKinds kind = true → validPeriods period = false →
      GetCalendarHistory selectedSiteID kind startDate endDate period timeZone =
        ⟨[], some ("invalid period for calendar history: " ++ period ++
          " (supported: day, week, month, year)")⟩) ∧
    (validPeriods period = true →
      (GetEnergyHistory selectedSiteID startDate endDate period timeZone).err = none ∧
      (GetBackupHistory selectedSiteID startDate endDate period timeZone).err = none) ∧
    (validKinds kind = true → validPeriods period = true →
      (GetCalendarHistory selectedSiteID kind startDate endDate period timeZone).err = none) := by
  have hgate : ensureSiteSelected selectedSiteID = none := by
    simp [ensureSiteSelected, hs]
  refine ⟨?_, ?_, ?_, ?_, ?_⟩
  · intro hp
    constructor <;> simp [GetEnergyHistory, GetBackupHistory, hgate, hp]
  · intro hk
    simp [GetCalendarHistory, hgate, hk]
  · intro hk hp
    simp [GetCalendarHistory, hgate, hk, hp]
  · intro hp
    constructor <;> simp [GetEnergyHistory, GetBackupHistory, hgate, hp]
  · intro hk hp
    simp [GetCalendarHistory, hgate, hk, hp]

/-- Witness for `C6_history_validation` at site 1, kind "energy", period
"fortnight". -/
theorem C6_history_validation_witness :
    (validPeriods "fortnight" = false →
      GetEnergyHistory 1 "2024-01-01" "2024-01-02" "fortnight" [] =
        ⟨[], some ("invalid period for energy history: " ++ "fortnight" ++
          " (supported: day, week, month, year)")⟩ ∧
      GetBackupHistory 1 "2024-01-01" "2024-01-02" "fortnight" [] =
        ⟨[], some ("invalid period for backup history: " ++ "fortnight" ++
          " (supported: day, week, month, year)")⟩) ∧
    (validKinds "energy" = false →
      GetCalendarHistory 1 "energy" "2024-01-01" "2024-01-02" "fortnight" [] =
        ⟨[], some ("invalid kind for calendar history: " ++ "energy" ++
          " (supported: energy, backup)")⟩) ∧
    (validKinds "energy" = true → validPeriods "fortnight" = false →
      GetCalendarHistory 1 "energy" "2024-01-01" "2024-01-02" "fortnight" [] =
        ⟨[], some ("invalid period for calendar history: " ++ "fortnight" ++
          " (supported: day, week, month, year)")⟩) ∧
    (validPeriods "fortnight" = true →
      (GetEnergyHistory 1 "2024-01-01" "2024-01-02" "fortnight" []).err = none ∧
      (GetBackupHistory 1 "2024-01-01" "2024-01-02" "fortnight" []).err = none) ∧
    (validKinds "energy" = true → validPeriods "fortnight" = true →
      (GetCalendarHistory 1 "energy" "2024-01-01" "2024-01-02" "fortnight" []).err = none) :=
  C6_history_validation 1 (by decide) "energy" "2024-01-01" "2024-01-02" "fortnight" []

/-- C9: encoding any duration value (an int64 nanosecond count) with the
custom Duration codec's `MarshalJSON` and decoding the result with its
`UnmarshalJSON` yields the original duration. -/
theorem C9_duration_roundtrip (d : Int) (hlo : -(2 ^ 63) ≤ d) (hhi : d < 2 ^ 63) :
    goUnmarshalDuration (goMarshalDuration d) = some d := by
  rw [unmarshal_marshal_reduction]
  exact goParse_goPrint d hlo hhi

/-- Witness for `C9_duration_roundtrip` at 3723000000045 ns, printed as
"1h2m3.000000045s". -/
theorem C9_duration_roundtrip_witness :
    goUnmarshalDuration (goMarshalDuration 3723000000045) = some 3723000000045 :=
  C9_duration_roundtrip 3723000000045 (by norm_num) (by norm_num)

/-- Witness for `C10_getSOE`: one live-status value without
`percentage_charged` and one carrying 55. -/
theorem C10_getSOE_witness :
    getSOEPercentage ⟨none, none, none, none, none, "", false, 0⟩ = 0 ∧
    getSOEPercentage ⟨none, none, none, none, some 55, "", false, 0⟩ = 55 :=
  ⟨(C10_getSOE ⟨none, none, none, none, none, "", false, 0⟩).1 rfl,
   (C10_getSOE ⟨none, none, none, none, some 55, "", false, 0⟩).2 55 rfl⟩

end Powerwall
